import Mathlib

/-!
Shallow embedding of the SpriteGenerator core (src/src/App.jsx) and proofs
about it.

Modelling conventions:
* JavaScript strings are modelled as `List Char`.
* JavaScript numbers are modelled exactly: the packing engine only ever
  computes with integer pixel values, so its cursor arithmetic lives in `ℤ`;
  values decoded from the URL hash may be arbitrary decimals, so decoded
  coordinates live in `ℚ` (every finite float is a rational, so `ℚ` is a
  faithful superset of the values the code can hold).
* `repackSprites` computes `maxWidth = Math.min(4096, Math.max(512,
  Math.sqrt(totalArea) * 1.5))` in 64-bit floating point.  The square root is
  not expressible exactly in `ℚ`, so the embedding takes `maxWidth` as an
  explicit rational parameter; the clamp guarantees the actual value always
  lies in `[512, 4096]`, and the theorems below quantify over every such
  parameter (or over all parameters outright), which covers the value the
  code computes.
* `Date.now()` (used for fresh identifiers in `deserializeSprites`) is an
  explicit `now : ℕ` parameter.
* Effectful React state updates are modelled as returned values:
  `repackSprites` returns `Option Layout`, where `none` models the early
  `return` on an empty item list (no state update at all) and `some`
  carries the sprites and canvas dimensions the code installs, and
  `generateCode` returns `Option (List Char)`, where `none` models the
  implicit `undefined` when no `if` branch returns.
-/

/-- Convert a Lean string literal to the `List Char` model of JS strings. -/
def str (s : String) : List Char := s.toList

/-- JS `s.split(c)` for a single-character separator `c`: always returns a
non-empty list of (possibly empty) fragments. -/
def splitOnChar (c : Char) : List Char → List (List Char)
  | [] => [[]]
  | x :: xs =>
    let r := splitOnChar c xs
    if x = c then [] :: r
    else
      match r with
      | [] => [[x]]
      | h :: t => (x :: h) :: t

/-- JS `parts.join(c)` for a single-character separator. -/
def joinSep (c : Char) : List (List Char) → List Char
  | [] => []
  | [p] => p
  | p :: ps => p ++ c :: joinSep c ps

/-- JS `parts.join(sep)` for a multi-character separator. -/
def joinWith (sep : List Char) : List (List Char) → List Char
  | [] => []
  | [p] => p
  | p :: ps => p ++ sep ++ joinWith sep ps

/-- Decimal digit test on a character (`0`–`9`). -/
def isDigitChar (c : Char) : Bool := 48 ≤ c.toNat && c.toNat ≤ 57

/-- Numeric value of a decimal digit character. -/
def charVal (c : Char) : ℕ := c.toNat - 48

/-- Value of a big-endian string of decimal digit characters. -/
def valOfDigits (s : List Char) : ℕ := s.foldl (fun a c => 10 * a + charVal c) 0

/-- Split a character list into its longest prefix of decimal digits and the
remainder. -/
def takeDigits : List Char → List Char × List Char
  | [] => ([], [])
  | c :: cs =>
    if isDigitChar c then
      let r := takeDigits cs
      (c :: r.1, r.2)
    else ([], c :: cs)

/-- Unsigned part of JS `Number(string)`: decimal digits, an optional single
decimal point with further digits, at least one digit overall, nothing left
over.  (`"1."` and `".5"` are accepted, as in JS; exponents, hex literals,
`Infinity` and whitespace trimming are never produced by this application and
are not modelled — omitting them only shrinks the set of strings the
round-trip and no-validation theorems quantify over.) -/
def parseUnsigned (s : List Char) : Option ℚ :=
  let ip := (takeDigits s).1
  match (takeDigits s).2 with
  | [] => if ip = [] then none else some ((valOfDigits ip : ℕ) : ℚ)
  | '.' :: rest2 =>
    let fp := (takeDigits rest2).1
    if (takeDigits rest2).2 = [] then
      if ip = [] ∧ fp = [] then none
      else some ((valOfDigits ip : ℚ) + (valOfDigits fp : ℚ) / (10 : ℚ) ^ fp.length)
    else none
  | _ => none

/-- JS `Number(string)`: the empty string is `0`, an optional sign precedes
the unsigned part, and `none` models `NaN`. -/
def jsNumber : List Char → Option ℚ
  | [] => some 0
  | '-' :: rest => (parseUnsigned rest).map (fun q => -q)
  | '+' :: rest => parseUnsigned rest
  | s => parseUnsigned s

/-- Single decimal digit as a character (only ever applied to `d < 10`). -/
def digitChar : ℕ → Char
  | 0 => '0'
  | 1 => '1'
  | 2 => '2'
  | 3 => '3'
  | 4 => '4'
  | 5 => '5'
  | 6 => '6'
  | 7 => '7'
  | 8 => '8'
  | 9 => '9'
  | _ => '?'

/-- Big-endian decimal digits of `n`, by repeated division; `fuel ≥ n + 1`
suffices since `n / 10 < n` for positive `n`. -/
def natToCharsAux : ℕ → ℕ → List Char
  | 0, _ => []
  | fuel + 1, n => if n = 0 then [] else natToCharsAux fuel (n / 10) ++ [digitChar (n % 10)]

/-- JS `String(n)` for a natural number. -/
def natToChars (n : ℕ) : List Char := if n = 0 then ['0'] else natToCharsAux (n + 1) n

/-- Truncated integer part of a non-negative rational. -/
def ratIntPart (q : ℚ) : ℤ := q.num / (q.den : ℤ)

/-- Decimal digits of a fractional part `0 ≤ f < 1`, emitted most significant
first, stopping at zero or after `fuel` digits (17 digits suffices for every
value a 64-bit float prints). -/
def fracCharsAux : ℕ → ℚ → List Char
  | 0, _ => []
  | fuel + 1, f =>
    if f = 0 then []
    else
      let d := ratIntPart (f * 10)
      digitChar d.toNat :: fracCharsAux fuel (f * 10 - (d : ℚ))

/-- JS `String(q)` for a non-negative rational: plain decimal digits, plus a
point and fraction digits when the value is not an integer. -/
def ratToCharsNN (q : ℚ) : List Char :=
  if q.den = 1 then natToChars q.num.toNat
  else natToChars (ratIntPart q).toNat ++ '.' :: fracCharsAux 17 (q - ((ratIntPart q : ℤ) : ℚ))

/-- JS number-to-string as used by template interpolation and
`JSON.stringify`: sign followed by the non-negative rendering. -/
def ratToChars (q : ℚ) : List Char :=
  if q < 0 then '-' :: ratToCharsNN (-q) else ratToCharsNN q

/-- A positioned, named sprite rectangle, as held in the application's
`sprites` state (App.jsx).  Coordinates are rationals because
`deserializeSprites` stores whatever numbers it parses. -/
structure Sprite where
  id : ℕ
  name : List Char
  x : ℚ
  y : ℚ
  w : ℚ
  h : ℚ
  deriving DecidableEq

/-- The reserved characters of the URL wire format (App.jsx line 285). -/
def reservedChars : List Char := [':', ';', ',', '|']

/-- `s.name.replace(/[:;,|]/g, '-')` (App.jsx line 285). -/
def cleanName (n : List Char) : List Char :=
  n.map fun c => if c ∈ reservedChars then '-' else c

/-- The `x,y,w,h` part of one serialized record (App.jsx line 286). -/
def coordsChars (s : Sprite) : List Char :=
  ratToChars s.x ++ ',' :: (ratToChars s.y ++ ',' :: (ratToChars s.w ++ ',' :: ratToChars s.h))

/-- One `name:x,y,w,h` record of `serializeSprites` (App.jsx line 286). -/
def encodeRecord (s : Sprite) : List Char :=
  cleanName s.name ++ ':' :: coordsChars s

/-- `serializeSprites` (App.jsx lines 280–289): empty input gives the empty
string, otherwise `v1|` followed by `;`-joined records. -/
def serializeSprites (ss : List Sprite) : List Char :=
  if ss = [] then []
  else 'v' :: '1' :: '|' :: joinSep ';' (ss.map encodeRecord)

/-- Field lookup plus `Number` conversion: JS `Number(fields[i])`, where a
missing field is `undefined` and `Number(undefined)` is `NaN`. -/
def jsNumberAt (fields : List (List Char)) (i : ℕ) : Option ℚ :=
  match fields.get? i with
  | none => none
  | some f => jsNumber f

/-- One record of `deserializeSprites` (App.jsx lines 300–312): split on
`':'`, require a non-empty name and coordinate part, split the coordinates on
`','`, and require the first four fields to parse as numbers; `none` models
the `null` that the surrounding `.filter(Boolean)` drops. -/
def parseRecord (rid : ℕ) (item : List Char) : Option Sprite :=
  match splitOnChar ':' item with
  | name :: coords :: _ =>
    if name = [] ∨ coords = [] then none
    else
      let fields := splitOnChar ',' coords
      match jsNumberAt fields 0, jsNumberAt fields 1, jsNumberAt fields 2, jsNumberAt fields 3 with
      | some x, some y, some w, some h => some ⟨rid, name, x, y, w, h⟩
      | _, _, _, _ => none
  | _ => none

/-- `items.map((item, index) => …).filter(Boolean)` of `deserializeSprites`:
record `i` receives identifier `now + i`, and records that parse to `null`
are dropped individually. -/
def decodeRecords (now : ℕ) : ℕ → List (List Char) → List Sprite
  | _, [] => []
  | i, r :: rs =>
    match parseRecord (now + i) r with
    | none => decodeRecords now (i + 1) rs
    | some s => s :: decodeRecords now (i + 1) rs

/-- `deserializeSprites` (App.jsx lines 291–313): the input must start with
`'#'` (it is `window.location.hash`) and then with the `v1|` version tag;
anything else, and an empty payload, decodes to the empty list. -/
def deserializeSprites (now : ℕ) (hash : List Char) : List Sprite :=
  match hash with
  | '#' :: 'v' :: '1' :: '|' :: dataStr =>
    if dataStr = [] then [] else decodeRecords now 0 (splitOnChar ';' dataStr)
  | _ => []

/-- An unpositioned build item (App.jsx `buildItems`): pixel dimensions are
integers read off a decoded image; the pixel source itself is irrelevant to
layout and is not modelled. -/
structure Item where
  id : ℕ
  name : List Char
  tag : Option (List Char)
  w : ℤ
  h : ℤ
  deriving DecidableEq

/-- The packing cursor of `repackSprites` (App.jsx lines 170–174). -/
structure PackState where
  currentX : ℤ
  currentY : ℤ
  rowHeight : ℤ
  maxCanvasWidth : ℤ
  deriving DecidableEq

/-- An item together with the position `repackSprites` assigned to it
(the `{ ...item, x, y }` of App.jsx line 184). -/
structure Positioned where
  item : Item
  x : ℤ
  y : ℤ
  deriving DecidableEq

/-- The fixed inter-item padding (App.jsx line 174). -/
def padding : ℤ := 2

/-- One step of the packing loop (App.jsx lines 176–192): wrap to a new row
when `currentX + item.w > maxWidth && currentX > 0`, place the item at the
cursor, then advance the cursor, the row height and the running maximum
width (note the maximum is taken after adding `item.w + padding`). -/
def placeItem (maxWidth : ℚ) (st : PackState) (it : Item) : PackState × Positioned :=
  let st0 :=
    if ((st.currentX + it.w : ℤ) : ℚ) > maxWidth ∧ st.currentX > 0 then
      { st with currentX := 0, currentY := st.currentY + st.rowHeight + padding, rowHeight := 0 }
    else st
  let pos : Positioned := ⟨it, st0.currentX, st0.currentY⟩
  ({ currentX := st0.currentX + it.w + padding,
     currentY := st0.currentY,
     rowHeight := max st0.rowHeight it.h,
     maxCanvasWidth := max st0.maxCanvasWidth (st0.currentX + it.w + padding) }, pos)

/-- The `items.map` packing loop of `repackSprites`, threading the cursor
state and collecting positioned items in input order. -/
def packItems (maxWidth : ℚ) : PackState → List Item → PackState × List Positioned
  | st, [] => (st, [])
  | st, it :: rest =>
    let s1 := placeItem maxWidth st it
    let s2 := packItems maxWidth s1.1 rest
    (s2.1, s1.2 :: s2.2)

/-- The layout `repackSprites` installs: the new `sprites` array plus the
canvas dimensions passed to `setImageDimensions`. -/
structure Layout where
  sprites : List Sprite
  width : ℤ
  height : ℤ
  deriving DecidableEq

/-- `item.tag || item.name` (App.jsx line 202): the tag when it is present
and non-empty (the empty string is falsy in JS), the name otherwise. -/
def spriteName (it : Item) : List Char :=
  match it.tag with
  | some t => if t = [] then it.name else t
  | none => it.name

/-- The sprite record built from a positioned item (App.jsx lines 200–207):
only `x` and `y` are assigned by packing; `id`, `w`, `h` are copied and the
name falls back from the tag. -/
def toSprite (p : Positioned) : Sprite :=
  ⟨p.item.id, spriteName p.item, (p.x : ℚ), (p.y : ℚ), (p.item.w : ℚ), (p.item.h : ℚ)⟩

/-- The initial cursor of `repackSprites`. -/
def initState : PackState := ⟨0, 0, 0, 0⟩

/-- `repackSprites` (App.jsx lines 162–213).  `none` models the early
`return` on an empty item list (no dimensions and no sprites are installed);
otherwise the positioned items, the final `maxCanvasWidth` and
`currentY + rowHeight` form the installed layout.  `maxWidth` abstracts the
floating-point `Math.min(4096, Math.max(512, Math.sqrt(totalArea) * 1.5))`,
which always lies in `[512, 4096]`. -/
def repackSprites (maxWidth : ℚ) (items : List Item) : Option Layout :=
  if items = [] then none
  else
    let r := packItems maxWidth initState items
    some ⟨r.2.map toSprite, r.1.maxCanvasWidth, r.1.currentY + r.1.rowHeight⟩

/-- Two sprite rectangles overlap when their interiors intersect. -/
def spritesOverlap (a b : Sprite) : Prop :=
  a.x < b.x + b.w ∧ b.x < a.x + a.w ∧ a.y < b.y + b.h ∧ b.y < a.y + a.h

instance (a b : Sprite) : Decidable (spritesOverlap a b) := by
  unfold spritesOverlap; infer_instance

/-- Running maximum of a list of rationals over a base value. -/
def listSup (base : ℚ) (l : List ℚ) : ℚ := l.foldl max base

/-- The placeholder `generateCode` returns whenever there are no sprites
(App.jsx line 536). -/
def placeholderText : List Char := str "/* Paste images to generate Mixins */"

/-- Header of the SCSS output (App.jsx lines 542–550). -/
def scssHeader (w h : ℚ) : List Char :=
  str "/* Generated by Sprite Builder */\n/* Binary Source Size: " ++ ratToChars w ++
    str "x" ++ ratToChars h ++
    str "px */\n\n// 1. Config Map\n$sprite-image: \x27sprites.png\x27;\n$sprite-width: " ++
    ratToChars w ++ str "px;\n$sprite-height: " ++ ratToChars h ++
    str "px;\n\n$sprites: (\n"

/-- One entry of the SCSS map (App.jsx line 553); note the literal `-`
prefixed to the interpolated `x` and `y`. -/
def scssEntry (s : Sprite) : List Char :=
  str "  \x27" ++ s.name ++ str "\x27: (x: -" ++ ratToChars s.x ++ str "px, y: -" ++
    ratToChars s.y ++ str "px, w: " ++ ratToChars s.w ++ str "px, h: " ++
    ratToChars s.h ++ str "px),\n"

/-- The fixed mixin text appended after the SCSS map (App.jsx lines 556–558). -/
def scssMixins : List Char :=
  str ");\n\n// 2. Mixin: Reference by Tag Name\n@mixin sprite($name) \x7b\n  $icon: map-get($sprites, $name);\n  background-image: url(#\x7b$sprite-image\x7d);\n  background-repeat: no-repeat;\n  background-size: $sprite-width $sprite-height;\n  background-position: map-get($icon, \x27x\x27) map-get($icon, \x27y\x27);\n  width: map-get($icon, \x27w\x27);\n  height: map-get($icon, \x27h\x27);\n  \n  // UX: Disable default touch actions for better gesture control\n  touch-action: none;\n\x7d\n\n" ++
  str "// 3. Highlight Helper (GPU Accelerated)\n// Perfect for click/touch feedback on transparent PNGs\n@mixin sprite-highlight($scale: 1.1) \x7b\n  filter: drop-shadow(0 4px 6px rgba(0,0,0,0.2)) brightness(1.1);\n  transform: scale($scale);\n  transition: transform 0.1s ease, filter 0.1s ease;\n\x7d\n\n// Usage:\n// .btn-play \x7b @include sprite(\x27start-btn\x27); \x7d\n// .btn-play:active \x7b @include sprite-highlight; \x7d"

/-- `sprites.forEach` accumulation of the SCSS entries. -/
def scssBody : List Sprite → List Char
  | [] => []
  | s :: rest => scssEntry s ++ scssBody rest

/-- The SCSS branch of `generateCode` (App.jsx lines 538–560). -/
def scssCode (sprites : List Sprite) (w h : ℚ) : List Char :=
  scssHeader w h ++ scssBody sprites ++ scssMixins

/-- Base class of the CSS output (App.jsx line 563). -/
def cssHeader (w h : ℚ) : List Char :=
  str "/* Base Class */\n.sprite \x7b\n  background-image: url(\x27sprites.png\x27);\n  background-repeat: no-repeat;\n  display: inline-block;\n  background-size: " ++
    ratToChars w ++ str "px " ++ ratToChars h ++ str "px;\n\x7d\n\n"

/-- One per-sprite class of the CSS output (App.jsx line 565). -/
def cssEntry (s : Sprite) : List Char :=
  str "/* Tag: " ++ s.name ++ str " */\n." ++ s.name ++ str " \x7b\n  width: " ++
    ratToChars s.w ++ str "px;\n  height: " ++ ratToChars s.h ++
    str "px;\n  background-position: -" ++ ratToChars s.x ++ str "px -" ++
    ratToChars s.y ++ str "px;\n\x7d\n"

/-- `sprites.forEach` accumulation of the CSS classes. -/
def cssBody : List Sprite → List Char
  | [] => []
  | s :: rest => cssEntry s ++ cssBody rest

/-- The CSS branch of `generateCode` (App.jsx lines 562–567). -/
def cssCode (sprites : List Sprite) (w h : ℚ) : List Char :=
  cssHeader w h ++ cssBody sprites

/-- One `"name": {…}` block of `JSON.stringify(map, null, 2)`. -/
def jsonEntry (s : Sprite) : List Char :=
  str "  \"" ++ s.name ++ str "\": \x7b\n    \"x\": " ++ ratToChars s.x ++
    str ",\n    \"y\": " ++ ratToChars s.y ++ str ",\n    \"width\": " ++ ratToChars s.w ++
    str ",\n    \"height\": " ++ ratToChars s.h ++ str "\n  \x7d"

/-- The JSON branch of `generateCode` (App.jsx lines 570–576):
`JSON.stringify` of the name-keyed map with two-space indentation.  (Names
are assumed sanitized, so no JSON string escaping arises; a duplicate name
would collapse keys in JS, which no claim exercises.) -/
def jsonCode (sprites : List Sprite) : List Char :=
  match sprites with
  | [] => str "\x7b\x7d"
  | _ => str "\x7b\n" ++ joinWith (str ",\n") (sprites.map jsonEntry) ++ str "\n\x7d"

/-- `generateCode` (App.jsx lines 535–577): the placeholder for zero sprites
in every format, one branch per supported format, and `none` — the implicit
JS `undefined` of falling off the end of the function — for any other
format. -/
def generateCode (sprites : List Sprite) (width height : ℚ) (codeMode : List Char) :
    Option (List Char) :=
  if sprites = [] then some placeholderText
  else if codeMode = str "scss" then some (scssCode sprites width height)
  else if codeMode = str "css" then some (cssCode sprites width height)
  else if codeMode = str "json" then some (jsonCode sprites)
  else none

/-- The example item list of the spec (§8): three 100×50 items. -/
def exThree : List Item :=
  [⟨1, str "a", none, 100, 50⟩, ⟨2, str "b", none, 100, 50⟩, ⟨3, str "c", none, 100, 50⟩]

/-- Proof bookkeeping: the cursor components are non-negative (true of every
reachable packing state). -/
def stInv (st : PackState) : Prop :=
  0 ≤ st.currentX ∧ 0 ≤ st.currentY ∧ 0 ≤ st.rowHeight

/-- Proof bookkeeping: how an already-placed item relates to the current
cursor — it sits in a finished row entirely above `currentY`, or in the
current row strictly left of `currentX`; either way it ends above
`currentY + rowHeight`. -/
def rowInv (st : PackState) (p : Positioned) : Prop :=
  0 ≤ p.x ∧ 0 ≤ p.y ∧ p.y + p.item.h ≤ st.currentY + st.rowHeight ∧
    (p.y + p.item.h ≤ st.currentY ∨
      (p.y = st.currentY ∧ p.x + p.item.w + padding ≤ st.currentX))

/-- Disjointness of two positioned items, at the integer level. -/
def posDisj (p q : Positioned) : Prop :=
  ¬ (p.x < q.x + q.item.w ∧ q.x < p.x + p.item.w ∧
      p.y < q.y + q.item.h ∧ q.y < p.y + p.item.h)

/-- Concrete layout that `repackSprites` produces for `exThree` at target
width 512 (the value the clamp yields for a total area of 15000). -/
def exThreeLayout : Layout :=
  ⟨[⟨1, str "a", 0, 0, 100, 50⟩, ⟨2, str "b", 102, 0, 100, 50⟩,
    ⟨3, str "c", 204, 0, 100, 50⟩], 306, 50⟩

lemma placeItem_item (tw : ℚ) (st : PackState) (it : Item) :
    (placeItem tw st it).2.item = it := rfl

lemma packItems_map_item (tw : ℚ) :
    ∀ (items : List Item) (st : PackState),
      ((packItems tw st items).2.map Positioned.item) = items
  | [], _ => rfl
  | it :: rest, st => by
    simp only [packItems, List.map_cons, placeItem_item]
    rw [packItems_map_item tw rest]

/-- C9: packing preserves input order and is per-item frame-preserving — the
`i`-th output sprite keeps the `i`-th item's `id`, `w` and `h`, and its name
is the item's tag, falling back to the item's name; only `x` and `y` are
assigned by packing. -/
theorem repack_preserves_items (tw : ℚ) (items : List Item) (L : Layout)
    (hL : repackSprites tw items = some L) :
    L.sprites.map (fun s => (s.id, s.name, s.w, s.h)) =
      items.map (fun it => (it.id, spriteName it, (it.w : ℚ), (it.h : ℚ))) := by
  unfold repackSprites at hL
  split at hL
  · exact absurd hL (by simp)
  · injection hL with hL
    subst hL
    have h := packItems_map_item tw items initState
    conv_rhs => rw [← h]
    simp [List.map_map, toSprite, Function.comp]

/-- Witness for C9 at the three-item example. -/
theorem repack_preserves_items_witness :
    exThreeLayout.sprites.map (fun s => (s.id, s.name, s.w, s.h)) =
      exThree.map (fun it => (it.id, spriteName it, (it.w : ℚ), (it.h : ℚ))) :=
  repack_preserves_items 512 exThree exThreeLayout (by decide)

/-- C6 counterexample: on the empty item list `repackSprites` does not
return a zero-dimension layout (it returns early, installing nothing). -/
theorem repack_empty_not_zero_layout :
    repackSprites 512 ([] : List Item) ≠ some ⟨[], 0, 0⟩ := by decide

/-- C6 (amended): `repackSprites` applied to the empty item list produces no
layout at all — the early `return` leaves the previous sprites and canvas
dimensions untouched; it is a no-op, not an error. -/
theorem repack_empty_no_layout (tw : ℚ) : repackSprites tw [] = none := rfl

/-- C5 counterexample: with zero rectangles the `json` format yields the
placeholder comment, not an empty mapping. -/
theorem generate_json_empty_not_mapping :
    generateCode [] 0 0 (str "json") = some placeholderText ∧
      placeholderText ≠ str "\x7b\x7d" := by decide

/-- C5 (amended): with zero rectangles `generateCode` returns the fixed
non-empty human-readable placeholder string in every format — including
`json`, where it is the placeholder rather than an empty mapping. -/
theorem generate_empty_placeholder (w h : ℚ) (fmt : List Char) :
    generateCode [] w h fmt = some placeholderText ∧ placeholderText ≠ [] := by
  refine ⟨by simp [generateCode], by decide⟩

/-- C4 counterexample: an unsupported format is not rejected explicitly —
with zero rectangles it produces the same default placeholder output as every
supported format, and with rectangles present the function silently falls
through, returning JS `undefined` (`none`), not an error value. -/
theorem generate_unknown_format_default :
    generateCode [] 0 0 (str "xml") = some placeholderText ∧
      generateCode [⟨1, str "a", 0, 0, 1, 1⟩] 0 0 (str "xml") = none := by decide

/-- C4 (amended): for any format other than `css`, `scss` and `json`,
`generateCode` returns the placeholder when there are no rectangles and
otherwise no output at all (the implicit `undefined` of falling off the end
— distinguishable from every supported-format output, but an implicit
fall-through rather than an explicit rejection); each of the three supported
formats always produces a string. -/
theorem generate_format_handling (sprites : List Sprite) (w h : ℚ) (fmt : List Char) :
    (fmt ∉ [str "scss", str "css", str "json"] →
      generateCode sprites w h fmt = if sprites = [] then some placeholderText else none) ∧
    (fmt ∈ [str "scss", str "css", str "json"] →
      (generateCode sprites w h fmt).isSome = true) := by
  constructor
  · intro hf
    simp only [List.mem_cons, List.not_mem_nil, or_false, not_or] at hf
    obtain ⟨h1, h2, h3⟩ := hf
    by_cases hs : sprites = []
    · simp [generateCode, hs]
    · simp [generateCode, hs, h1, h2, h3]
  · intro hf
    by_cases hs : sprites = []
    · simp [generateCode, hs]
    · simp only [List.mem_cons, List.not_mem_nil, or_false] at hf
      rcases hf with h | h | h <;> subst h <;>
        simp [generateCode, hs, (show str "css" ≠ str "scss" by decide),
          (show str "json" ≠ str "scss" by decide), (show str "json" ≠ str "css" by decide)]

/-- Witness for C4: an unknown format with rectangles present yields no
output, while `css` yields some output. -/
theorem generate_format_handling_witness :
    generateCode [⟨1, str "a", 0, 0, 1, 1⟩] 0 0 (str "xml") = none ∧
      (generateCode [⟨1, str "a", 0, 0, 1, 1⟩] 0 0 (str "css")).isSome = true := by
  constructor
  · have h := (generate_format_handling [⟨1, str "a", 0, 0, 1, 1⟩] 0 0 (str "xml")).1
      (by decide)
    simpa using h
  · exact (generate_format_handling [⟨1, str "a", 0, 0, 1, 1⟩] 0 0 (str "css")).2
      (by decide)

/-- C1 counterexample: the spec's own example — three 100×50 items at target
width 512 (the clamped value for total area 15000) — produces a canvas of
width 306, not the claimed tight 304: the code takes its running maximum
after advancing the cursor past the item's trailing padding. -/
theorem repack_example_not_tight :
    repackSprites 512 exThree = some exThreeLayout ∧
      exThreeLayout.width = 306 ∧ (306 : ℤ) ≠ 304 := by decide

/-- C3 counterexample: without the `'#'` of `window.location.hash`, a string
carrying the `v1|` version tag still decodes to the empty list — the spec's
example input does not return the `b` rectangle. -/
theorem decode_example_unprefixed_empty :
    deserializeSprites 0 (str "v1|a:1,2,3,x;b:0,0,10,10") = [] ∧
      ([] : List Sprite) ≠ [⟨1, str "b", 0, 0, 10, 10⟩] := by decide

/-- C2 counterexample: `deserializeSprites ∘ serializeSprites` is the empty
list — `serializeSprites` emits `v1|…` with no leading `'#'`, which
`deserializeSprites` requires, so the literal round trip reproduces nothing. -/
theorem decode_encode_not_roundtrip :
    deserializeSprites 0 (serializeSprites [⟨7, str "a", 0, 0, 10, 10⟩]) = [] ∧
      ([] : List Sprite) ≠ [⟨7, str "a", 0, 0, 10, 10⟩] := by decide

lemma placeItem_of_wrap (tw : ℚ) (st : PackState) (it : Item)
    (h : ((st.currentX + it.w : ℤ) : ℚ) > tw ∧ st.currentX > 0) :
    placeItem tw st it =
      (⟨it.w + padding, st.currentY + st.rowHeight + padding, max 0 it.h,
          max st.maxCanvasWidth (it.w + padding)⟩,
        ⟨it, 0, st.currentY + st.rowHeight + padding⟩) := by
  unfold placeItem
  rw [if_pos h]
  simp

lemma placeItem_of_no_wrap (tw : ℚ) (st : PackState) (it : Item)
    (h : ¬ (((st.currentX + it.w : ℤ) : ℚ) > tw ∧ st.currentX > 0)) :
    placeItem tw st it =
      (⟨st.currentX + it.w + padding, st.currentY, max st.rowHeight it.h,
          max st.maxCanvasWidth (st.currentX + it.w + padding)⟩,
        ⟨it, st.currentX, st.currentY⟩) := by
  unfold placeItem
  rw [if_neg h]

lemma packItems_cons (tw : ℚ) (st : PackState) (it : Item) (rest : List Item) :
    packItems tw st (it :: rest) =
      ((packItems tw (placeItem tw st it).1 rest).1,
        (placeItem tw st it).2 :: (packItems tw (placeItem tw st it).1 rest).2) := rfl

lemma packItems_mcw (tw : ℚ) :
    ∀ (items : List Item) (st : PackState),
      (packItems tw st items).1.maxCanvasWidth =
        ((packItems tw st items).2.map (fun p => p.x + p.item.w + padding)).foldl max
          st.maxCanvasWidth
  | [], _ => rfl
  | it :: rest, st => by
    rw [packItems_cons]
    simp only [List.map_cons, List.foldl_cons]
    rw [packItems_mcw tw rest]
    congr 1
    by_cases h : ((st.currentX + it.w : ℤ) : ℚ) > tw ∧ st.currentX > 0
    · rw [placeItem_of_wrap tw st it h]; simp
    · rw [placeItem_of_no_wrap tw st it h]

lemma packItems_height (tw : ℚ) :
    ∀ (items : List Item) (st : PackState), (∀ it ∈ items, 0 ≤ it.h) → 0 ≤ st.rowHeight →
      (packItems tw st items).1.currentY + (packItems tw st items).1.rowHeight =
        ((packItems tw st items).2.map (fun p => p.y + p.item.h)).foldl max
          (st.currentY + st.rowHeight)
  | [], _, _, _ => rfl
  | it :: rest, st, hh, hrh => by
    have hit : 0 ≤ it.h := hh it (List.mem_cons_self it rest)
    have hrest : ∀ x ∈ rest, 0 ≤ x.h := fun x hx => hh x (List.mem_cons_of_mem _ hx)
    rw [packItems_cons]
    simp only [List.map_cons, List.foldl_cons]
    by_cases h : ((st.currentX + it.w : ℤ) : ℚ) > tw ∧ st.currentX > 0
    · rw [placeItem_of_wrap tw st it h]
      rw [packItems_height tw rest _ hrest (le_max_left 0 it.h)]
      dsimp only
      congr 1
      rw [max_eq_right hit,
        max_eq_right (show st.currentY + st.rowHeight ≤
          st.currentY + st.rowHeight + padding + it.h by unfold padding; linarith)]
    · rw [placeItem_of_no_wrap tw st it h]
      rw [packItems_height tw rest _ hrest (le_trans hrh (le_max_left _ _))]
      dsimp only
      congr 1
      rw [← max_add_add_left]

lemma packItems_nonneg (tw : ℚ) :
    ∀ (items : List Item) (st : PackState), (∀ it ∈ items, 0 ≤ it.w) →
      0 ≤ st.currentX → 0 ≤ st.currentY → 0 ≤ st.rowHeight →
      ∀ p ∈ (packItems tw st items).2, 0 ≤ p.x ∧ 0 ≤ p.y
  | [], _, _, _, _, _ => by simp [packItems]
  | it :: rest, st, hw, hx, hy, hrh => by
    have hit : 0 ≤ it.w := hw it (List.mem_cons_self it rest)
    have hrest : ∀ x ∈ rest, 0 ≤ x.w := fun x hx' => hw x (List.mem_cons_of_mem _ hx')
    have hpad : (0 : ℤ) ≤ padding := by decide
    by_cases h : ((st.currentX + it.w : ℤ) : ℚ) > tw ∧ st.currentX > 0
    · rw [packItems_cons, placeItem_of_wrap tw st it h]
      dsimp only
      intro p hp
      rcases List.mem_cons.1 hp with rfl | hp'
      · exact ⟨le_refl 0, by show (0 : ℤ) ≤ st.currentY + st.rowHeight + padding; linarith⟩
      · refine packItems_nonneg tw rest _ hrest ?_ ?_ ?_ p hp'
        · show (0 : ℤ) ≤ it.w + padding
          linarith
        · show (0 : ℤ) ≤ st.currentY + st.rowHeight + padding
          linarith
        · exact le_max_left 0 it.h
    · rw [packItems_cons, placeItem_of_no_wrap tw st it h]
      dsimp only
      intro p hp
      rcases List.mem_cons.1 hp with rfl | hp'
      · exact ⟨hx, hy⟩
      · refine packItems_nonneg tw rest _ hrest ?_ ?_ ?_ p hp'
        · show (0 : ℤ) ≤ st.currentX + it.w + padding
          linarith
        · exact hy
        · exact le_trans hrh (le_max_left _ _)

lemma foldl_max_add (c : ℤ) :
    ∀ (l : List ℤ) (b : ℤ), ((l.map (· + c)).foldl max (b + c)) = l.foldl max b + c
  | [], _ => rfl
  | a :: l, b => by
    simp only [List.map_cons, List.foldl_cons]
    rw [max_add_add_right]
    exact foldl_max_add c l (max b a)

lemma foldl_max_zero_add (c : ℤ) (hc : 0 ≤ c) :
    ∀ l : List ℤ, l ≠ [] → (∀ a ∈ l, 0 ≤ a) →
      ((l.map (· + c)).foldl max 0) = l.foldl max 0 + c
  | [], h, _ => absurd rfl h
  | a :: l, _, ha => by
    simp only [List.map_cons, List.foldl_cons]
    have h0 : 0 ≤ a := ha a (List.mem_cons_self a l)
    rw [max_eq_right (by linarith : (0 : ℤ) ≤ a + c), max_eq_right h0]
    exact foldl_max_add c l a

lemma cast_foldl_max :
    ∀ (l : List ℤ) (b : ℤ),
      ((l.foldl max b : ℤ) : ℚ) = (l.map (Int.cast : ℤ → ℚ)).foldl max (b : ℚ)
  | [], _ => rfl
  | a :: l, b => by
    rw [List.foldl_cons, List.map_cons, List.foldl_cons, cast_foldl_max l (max b a),
      Int.cast_max]

lemma repack_dims_aux (tw : ℚ) (items : List Item) (hne : items ≠ [])
    (hdim : ∀ it ∈ items, 0 ≤ it.w ∧ 0 ≤ it.h) :
    (packItems tw initState items).1.maxCanvasWidth =
      ((packItems tw initState items).2.map (fun p => p.x + p.item.w)).foldl max 0 + padding ∧
    (packItems tw initState items).1.currentY + (packItems tw initState items).1.rowHeight =
      ((packItems tw initState items).2.map (fun p => p.y + p.item.h)).foldl max 0 := by
  have hitems := packItems_map_item tw items initState
  have hposs_ne : (packItems tw initState items).2 ≠ [] := by
    intro h0
    rw [← hitems, h0] at hne
    exact hne rfl
  have hnonneg := packItems_nonneg tw items initState
    (fun it h => (hdim it h).1) (le_refl 0) (le_refl 0) (le_refl 0)
  have hmem : ∀ p ∈ (packItems tw initState items).2, 0 ≤ p.item.w ∧ 0 ≤ p.item.h := by
    intro p hp
    exact hdim p.item (by rw [← hitems]; exact List.mem_map_of_mem _ hp)
  constructor
  · have hmcw := packItems_mcw tw items initState
    have hW1 : (packItems tw initState items).1.maxCanvasWidth =
        (((packItems tw initState items).2.map fun p => p.x + p.item.w).map
          (· + padding)).foldl max 0 := by
      rw [hmcw, List.map_map]
      rfl
    have hentries : ∀ a ∈ (packItems tw initState items).2.map (fun p => p.x + p.item.w),
        0 ≤ a := by
      intro a ha
      obtain ⟨p, hp, rfl⟩ := List.mem_map.1 ha
      have h1 := (hnonneg p hp).1
      have h2 := (hmem p hp).1
      linarith
    have hmapne : ((packItems tw initState items).2.map fun p => p.x + p.item.w) ≠ [] := by
      simpa using hposs_ne
    rw [hW1]
    exact foldl_max_zero_add padding (by decide) _ hmapne hentries
  · have hH := packItems_height tw items initState (fun it h => (hdim it h).2) le_rfl
    rw [show initState.currentY + initState.rowHeight = (0 : ℤ) from rfl] at hH
    exact hH

/-- C1 (amended): for every non-empty item list with non-negative dimensions
and every target width, the produced canvas height is the tight bounding box
`max (y + h)`, but the canvas width carries one trailing padding of slack:
it equals `max (x + w) + padding`, because the code takes its running maximum
of `currentX` after advancing past the placed item's padding.  The spec's
three-100×50-item example therefore yields canvas 306×50, not 304×50. -/
theorem repack_canvas_dims (tw : ℚ) (items : List Item)
    (hne : items ≠ []) (hdim : ∀ it ∈ items, 0 ≤ it.w ∧ 0 ≤ it.h)
    (L : Layout) (hL : repackSprites tw items = some L) :
    (L.width : ℚ) = listSup 0 (L.sprites.map fun s => s.x + s.w) + ((padding : ℤ) : ℚ) ∧
      (L.height : ℚ) = listSup 0 (L.sprites.map fun s => s.y + s.h) := by
  unfold repackSprites at hL
  rw [if_neg hne] at hL
  injection hL with hL
  subst hL
  obtain ⟨hW, hH⟩ := repack_dims_aux tw items hne hdim
  dsimp only
  have hfw : ((Int.cast : ℤ → ℚ) ∘ fun p : Positioned => p.x + p.item.w) =
      ((fun s : Sprite => s.x + s.w) ∘ toSprite) := by
    funext p
    show ((p.x + p.item.w : ℤ) : ℚ) = (toSprite p).x + (toSprite p).w
    rw [Int.cast_add]
    rfl
  have hfh : ((Int.cast : ℤ → ℚ) ∘ fun p : Positioned => p.y + p.item.h) =
      ((fun s : Sprite => s.y + s.h) ∘ toSprite) := by
    funext p
    show ((p.y + p.item.h : ℤ) : ℚ) = (toSprite p).y + (toSprite p).h
    rw [Int.cast_add]
    rfl
  constructor
  · rw [hW, Int.cast_add, cast_foldl_max]
    unfold listSup
    rw [List.map_map, List.map_map, hfw, Int.cast_zero]
  · rw [hH, cast_foldl_max]
    unfold listSup
    rw [List.map_map, List.map_map, hfh, Int.cast_zero]

/-- Witness for C1 at the three-item example: canvas 306×50, one trailing
padding beyond the tight 304. -/
theorem repack_canvas_dims_witness :
    ((exThreeLayout.width : ℤ) : ℚ) =
        listSup 0 (exThreeLayout.sprites.map fun s => s.x + s.w) + ((padding : ℤ) : ℚ) ∧
      ((exThreeLayout.height : ℤ) : ℚ) =
        listSup 0 (exThreeLayout.sprites.map fun s => s.y + s.h) :=
  repack_canvas_dims 512 exThree (by decide) (by decide) exThreeLayout (by decide)

lemma place_disj_old (tw : ℚ) (st : PackState) (it : Item) (q : Positioned)
    (hq : rowInv st q) : posDisj q (placeItem tw st it).2 := by
  obtain ⟨hqx, hqy, hqb, hqc⟩ := hq
  have hpad : (0 : ℤ) < padding := by decide
  by_cases h : ((st.currentX + it.w : ℤ) : ℚ) > tw ∧ st.currentX > 0
  · rw [placeItem_of_wrap tw st it h]
    simp only [posDisj]
    rintro ⟨-, -, -, h4⟩
    linarith
  · rw [placeItem_of_no_wrap tw st it h]
    simp only [posDisj]
    rintro ⟨-, h2, -, h4⟩
    rcases hqc with hprev | ⟨hy, hx⟩
    · linarith
    · linarith

lemma place_rowInv_old (tw : ℚ) (st : PackState) (it : Item) (hw : 0 < it.w)
    (hrh : 0 ≤ st.rowHeight) (q : Positioned) (hq : rowInv st q) :
    rowInv (placeItem tw st it).1 q := by
  obtain ⟨hqx, hqy, hqb, hqc⟩ := hq
  have hpad : (0 : ℤ) < padding := by decide
  by_cases h : ((st.currentX + it.w : ℤ) : ℚ) > tw ∧ st.currentX > 0
  · rw [placeItem_of_wrap tw st it h]
    refine ⟨hqx, hqy, ?_, Or.inl ?_⟩ <;> dsimp only
    · have hm : (0 : ℤ) ≤ max 0 it.h := le_max_left _ _
      linarith
    · linarith
  · rw [placeItem_of_no_wrap tw st it h]
    refine ⟨hqx, hqy, ?_, ?_⟩ <;> dsimp only
    · have hm : st.rowHeight ≤ max st.rowHeight it.h := le_max_left _ _
      linarith
    · rcases hqc with hprev | ⟨hy, hx⟩
      · exact Or.inl hprev
      · exact Or.inr ⟨hy, by linarith⟩

lemma place_rowInv_new (tw : ℚ) (st : PackState) (it : Item) (hst : stInv st)
    (hh : 0 ≤ it.h) : rowInv (placeItem tw st it).1 (placeItem tw st it).2 := by
  obtain ⟨hx, hy, hrh⟩ := hst
  have hpad : (0 : ℤ) < padding := by decide
  by_cases h : ((st.currentX + it.w : ℤ) : ℚ) > tw ∧ st.currentX > 0
  · rw [placeItem_of_wrap tw st it h]
    refine ⟨le_refl 0, ?_, ?_, Or.inr ⟨rfl, ?_⟩⟩ <;> dsimp only
    · linarith
    · have hm : it.h ≤ max 0 it.h := le_max_right _ _
      linarith
    · linarith
  · rw [placeItem_of_no_wrap tw st it h]
    refine ⟨hx, hy, ?_, Or.inr ⟨rfl, ?_⟩⟩ <;> dsimp only
    · have hm : it.h ≤ max st.rowHeight it.h := le_max_right _ _
      linarith
    · linarith

lemma place_stInv (tw : ℚ) (st : PackState) (it : Item) (hst : stInv st)
    (hw : 0 ≤ it.w) : stInv (placeItem tw st it).1 := by
  obtain ⟨hx, hy, hrh⟩ := hst
  have hpad : (0 : ℤ) < padding := by decide
  by_cases h : ((st.currentX + it.w : ℤ) : ℚ) > tw ∧ st.currentX > 0
  · rw [placeItem_of_wrap tw st it h]
    refine ⟨?_, ?_, ?_⟩ <;> dsimp only
    · linarith
    · linarith
    · exact le_max_left 0 it.h
  · rw [placeItem_of_no_wrap tw st it h]
    refine ⟨?_, ?_, ?_⟩ <;> dsimp only
    · linarith
    · exact hy
    · exact le_trans hrh (le_max_left _ _)

lemma packItems_disjoint (tw : ℚ) :
    ∀ (items : List Item) (st : PackState), stInv st →
      (∀ it ∈ items, 0 < it.w ∧ 0 < it.h) →
      (∀ q, rowInv st q → ∀ p ∈ (packItems tw st items).2, posDisj q p) ∧
      List.Pairwise posDisj (packItems tw st items).2
  | [], st, _, _ => by
    refine ⟨fun q _ p hp => ?_, by simp [packItems]⟩
    simp [packItems] at hp
  | it :: rest, st, hst, hitems => by
    have hw := (hitems it (List.mem_cons_self it rest)).1
    have hh := (hitems it (List.mem_cons_self it rest)).2
    have hrest : ∀ x ∈ rest, 0 < x.w ∧ 0 < x.h :=
      fun x hx => hitems x (List.mem_cons_of_mem _ hx)
    have hst1 : stInv (placeItem tw st it).1 := place_stInv tw st it hst (le_of_lt hw)
    have ih := packItems_disjoint tw rest (placeItem tw st it).1 hst1 hrest
    rw [packItems_cons]
    constructor
    · intro q hq p hp
      rcases List.mem_cons.1 hp with rfl | hp'
      · exact place_disj_old tw st it q hq
      · exact ih.1 q (place_rowInv_old tw st it hw hst.2.2 q hq) p hp'
    · exact List.Pairwise.cons
        (fun p hp => ih.1 _ (place_rowInv_new tw st it hst (le_of_lt hh)) p hp) ih.2

/-- C7: for every non-empty item list whose items all have positive width
and height, no two rectangles produced by `repackSprites` overlap. -/
theorem repack_no_overlap (tw : ℚ) (items : List Item)
    (hitems : ∀ it ∈ items, 0 < it.w ∧ 0 < it.h)
    (L : Layout) (hL : repackSprites tw items = some L) :
    L.sprites.Pairwise (fun a b => ¬ spritesOverlap a b) := by
  unfold repackSprites at hL
  split at hL
  · exact absurd hL (by simp)
  · injection hL with hL
    subst hL
    dsimp only
    have hd := (packItems_disjoint tw items initState
      ⟨le_refl 0, le_refl 0, le_refl 0⟩ hitems).2
    refine List.Pairwise.map toSprite ?_ hd
    intro p q hpq hov
    simp only [spritesOverlap, toSprite] at hov
    exact hpq ⟨by exact_mod_cast hov.1, by exact_mod_cast hov.2.1,
      by exact_mod_cast hov.2.2.1, by exact_mod_cast hov.2.2.2⟩

/-- Witness for C7 at the three-item example. -/
theorem repack_no_overlap_witness :
    exThreeLayout.sprites.Pairwise (fun a b => ¬ spritesOverlap a b) :=
  repack_no_overlap 512 exThree (by decide) exThreeLayout (by decide)

/-- C8: the packing loop wraps to a new row exactly when the cursor satisfies
`currentX > 0` and `currentX + item.w > maxWidth`; consequently an item that
is first in its row (`currentX = 0`) is never wrapped, however wide, and a
single item wider than the (always `[512, 4096]`-clamped) target width is
placed at the origin and realizes a canvas width `item.w + padding` that
exceeds the target width — and exceeds 4096 whenever the item is wider than
4096. -/
theorem repack_wrap_condition :
    (∀ (tw : ℚ) (st : PackState) (it : Item), 0 ≤ st.rowHeight →
      ((((placeItem tw st it).2.x = 0 ∧
          (placeItem tw st it).2.y = st.currentY + st.rowHeight + padding) ↔
        (((st.currentX + it.w : ℤ) : ℚ) > tw ∧ st.currentX > 0)) ∧
      (st.currentX = 0 → (placeItem tw st it).2 = ⟨it, 0, st.currentY⟩))) ∧
    (∀ (tw : ℚ) (it : Item), 512 ≤ tw → tw < (it.w : ℚ) → 0 ≤ it.h →
      repackSprites tw [it] =
          some ⟨[⟨it.id, spriteName it, 0, 0, (it.w : ℚ), (it.h : ℚ)⟩],
            it.w + padding, it.h⟩ ∧
        tw < ((it.w + padding : ℤ) : ℚ) ∧ (4096 < it.w → 4096 < it.w + padding)) := by
  have hpad : (0 : ℤ) < padding := by decide
  constructor
  · intro tw st it hrh
    constructor
    · by_cases h : ((st.currentX + it.w : ℤ) : ℚ) > tw ∧ st.currentX > 0
      · rw [placeItem_of_wrap tw st it h]
        simpa using h
      · rw [placeItem_of_no_wrap tw st it h]
        dsimp only
        constructor
        · rintro ⟨hx0, hy0⟩
          exfalso
          linarith
        · intro hc
          exact absurd hc h
    · intro hx0
      have hnw : ¬ (((st.currentX + it.w : ℤ) : ℚ) > tw ∧ st.currentX > 0) := by
        rintro ⟨-, h2⟩
        rw [hx0] at h2
        exact absurd h2 (by decide)
      rw [placeItem_of_no_wrap tw st it hnw, hx0]
  · intro tw it h512 hwide hh
    have hw0 : (0 : ℤ) < it.w := by
      have hq : (0 : ℚ) < (it.w : ℚ) := by linarith
      exact_mod_cast hq
    have hnw : ¬ (((initState.currentX + it.w : ℤ) : ℚ) > tw ∧ initState.currentX > 0) := by
      rintro ⟨-, h2⟩
      exact absurd h2 (by decide)
    refine ⟨?_, ?_, ?_⟩
    · unfold repackSprites
      rw [if_neg (by simp : ¬ ([it] : List Item) = [])]
      dsimp only
      rw [packItems_cons, placeItem_of_no_wrap tw initState it hnw]
      dsimp only [packItems, initState]
      simp only [zero_add]
      rw [max_eq_right (show (0 : ℤ) ≤ it.w + padding by linarith),
        max_eq_right hh]
      simp [toSprite]
    · rw [Int.cast_add]
      have hp2 : (0 : ℚ) < ((padding : ℤ) : ℚ) := by norm_num [padding]
      linarith
    · intro h4096
      linarith

/-- Witness for C8: a lone 5000-wide item at target width 512 is placed at
the origin without wrapping; the canvas width 5002 exceeds the target width
and the 4096 bound. -/
theorem repack_wrap_condition_witness :
    repackSprites 512 [⟨9, str "big", none, 5000, 40⟩] =
        some ⟨[⟨9, str "big", 0, 0, 5000, 40⟩], 5002, 40⟩ ∧
      (512 : ℚ) < ((5000 + padding : ℤ) : ℚ) ∧ (4096 : ℤ) < 5000 + padding := by
  obtain ⟨h1, h2, h3⟩ := repack_wrap_condition.2 512 ⟨9, str "big", none, 5000, 40⟩
    (le_refl 512) (by decide) (by decide)
  refine ⟨?_, h2, h3 (by decide)⟩
  rw [h1]
  decide

lemma digitChar_isDigit (d : ℕ) (hd : d < 10) : isDigitChar (digitChar d) = true := by
  interval_cases d <;> decide

lemma charVal_digitChar (d : ℕ) (hd : d < 10) : charVal (digitChar d) = d := by
  interval_cases d <;> decide

lemma natToCharsAux_digits :
    ∀ (fuel n : ℕ), ∀ c ∈ natToCharsAux fuel n, isDigitChar c = true
  | 0, n => by simp [natToCharsAux]
  | fuel + 1, n => by
    intro c hc
    by_cases h0 : n = 0
    · simp [natToCharsAux, h0] at hc
    · simp only [natToCharsAux, if_neg h0] at hc
      rcases List.mem_append.1 hc with h | h
      · exact natToCharsAux_digits fuel (n / 10) c h
      · have hceq : c = digitChar (n % 10) := by simpa using h
        subst hceq
        exact digitChar_isDigit _ (Nat.mod_lt _ (by norm_num))

lemma valOfDigits_append (l : List Char) (c : Char) :
    valOfDigits (l ++ [c]) = 10 * valOfDigits l + charVal c := by
  unfold valOfDigits
  rw [List.foldl_append]
  rfl

lemma natToCharsAux_val :
    ∀ (fuel n : ℕ), n < fuel → valOfDigits (natToCharsAux fuel n) = n
  | 0, n, h => absurd h (Nat.not_lt_zero n)
  | fuel + 1, n, h => by
    by_cases h0 : n = 0
    · simp [natToCharsAux, h0, valOfDigits]
    · simp only [natToCharsAux, if_neg h0]
      have hfuel : n / 10 < fuel := by
        have hn : 0 < n := Nat.pos_of_ne_zero h0
        have h2 := Nat.div_lt_self hn (by norm_num : (1 : ℕ) < 10)
        omega
      rw [valOfDigits_append, natToCharsAux_val fuel (n / 10) hfuel,
        charVal_digitChar _ (Nat.mod_lt _ (by norm_num))]
      exact Nat.div_add_mod n 10

lemma natToChars_digits (n : ℕ) : ∀ c ∈ natToChars n, isDigitChar c = true := by
  intro c hc
  unfold natToChars at hc
  split at hc
  · have hceq : c = '0' := by simpa using hc
    subst hceq
    decide
  · exact natToCharsAux_digits _ _ c hc

lemma natToChars_val (n : ℕ) : valOfDigits (natToChars n) = n := by
  unfold natToChars
  split
  · next h => subst h; decide
  · exact natToCharsAux_val (n + 1) n (Nat.lt_succ_self n)

lemma natToChars_ne_nil (n : ℕ) : natToChars n ≠ [] := by
  unfold natToChars
  split
  · simp
  · next h =>
    simp only [natToCharsAux, if_neg h]
    simp

lemma takeDigits_all :
    ∀ s : List Char, (∀ c ∈ s, isDigitChar c = true) → takeDigits s = (s, [])
  | [], _ => rfl
  | c :: cs, h => by
    have hc := h c (List.mem_cons_self c cs)
    simp [takeDigits, hc, takeDigits_all cs (fun x hx => h x (List.mem_cons_of_mem _ hx))]

lemma takeDigits_append :
    ∀ (s : List Char), (∀ c ∈ s, isDigitChar c = true) →
      ∀ (c₀ : Char) (rest : List Char), isDigitChar c₀ = false →
        takeDigits (s ++ c₀ :: rest) = (s, c₀ :: rest)
  | [], _, c₀, rest, h₀ => by simp [takeDigits, h₀]
  | c :: cs, h, c₀, rest, h₀ => by
    have hc := h c (List.mem_cons_self c cs)
    simp [takeDigits, hc,
      takeDigits_append cs (fun x hx => h x (List.mem_cons_of_mem _ hx)) c₀ rest h₀]

lemma takeDigits_cons_digit (c : Char) (cs : List Char) (hc : isDigitChar c = true) :
    takeDigits (c :: cs) = (c :: (takeDigits cs).1, (takeDigits cs).2) := by
  simp [takeDigits, hc]

lemma takeDigits_cons_nondigit (c : Char) (cs : List Char) (hc : isDigitChar c = false) :
    takeDigits (c :: cs) = ([], c :: cs) := by
  simp [takeDigits, hc]

lemma takeDigits_split :
    ∀ s : List Char,
      s = (takeDigits s).1 ++ (takeDigits s).2 ∧
        ∀ c ∈ (takeDigits s).1, isDigitChar c = true
  | [] => ⟨rfl, by simp [takeDigits]⟩
  | c :: cs => by
    obtain ⟨ih1, ih2⟩ := takeDigits_split cs
    by_cases hc : isDigitChar c = true
    · rw [takeDigits_cons_digit c cs hc]
      constructor
      · exact congrArg (c :: ·) ih1
      · intro x hx
        rcases List.mem_cons.1 hx with rfl | hx'
        · exact hc
        · exact ih2 x hx'
    · rw [takeDigits_cons_nondigit c cs (by simpa using hc)]
      constructor
      · rfl
      · intro x hx
        simp at hx

lemma parseUnsigned_digits (s : List Char) (hne : s ≠ [])
    (hd : ∀ c ∈ s, isDigitChar c = true) :
    parseUnsigned s = some ((valOfDigits s : ℕ) : ℚ) := by
  unfold parseUnsigned
  rw [takeDigits_all s hd]
  simp [hne]

lemma parseUnsigned_natToChars (n : ℕ) :
    parseUnsigned (natToChars n) = some ((n : ℕ) : ℚ) := by
  rw [parseUnsigned_digits _ (natToChars_ne_nil n) (natToChars_digits n), natToChars_val]

lemma jsNumber_cons_other (c : Char) (cs : List Char) (h1 : c ≠ '-') (h2 : c ≠ '+') :
    jsNumber (c :: cs) = parseUnsigned (c :: cs) := by
  simp [jsNumber, h1, h2]

lemma jsNumber_natToChars (n : ℕ) : jsNumber (natToChars n) = some ((n : ℕ) : ℚ) := by
  obtain ⟨c, cs, hcons⟩ : ∃ c cs, natToChars n = c :: cs := by
    cases h : natToChars n with
    | nil => exact absurd h (natToChars_ne_nil n)
    | cons c cs => exact ⟨c, cs, rfl⟩
  have hdig : ∀ x ∈ natToChars n, isDigitChar x = true := natToChars_digits n
  have hc : isDigitChar c = true := hdig c (hcons ▸ List.mem_cons_self c cs)
  have h1 : c ≠ '-' := by rintro rfl; exact absurd hc (by decide)
  have h2 : c ≠ '+' := by rintro rfl; exact absurd hc (by decide)
  rw [hcons, jsNumber_cons_other c cs h1 h2, ← hcons, parseUnsigned_natToChars]

lemma Rat_den_one_cast_num (q : ℚ) (h : q.den = 1) : ((q.num : ℤ) : ℚ) = q := by
  conv_rhs => rw [← Rat.num_div_den q]
  rw [h]
  simp

lemma ratToChars_int_nonneg (q : ℚ) (hden : q.den = 1) (hq : 0 ≤ q) :
    ratToChars q = natToChars q.num.toNat := by
  unfold ratToChars ratToCharsNN
  rw [if_neg (not_lt.2 hq), if_pos hden]

lemma ratToChars_int_neg (q : ℚ) (hden : q.den = 1) (hq : q < 0) :
    ratToChars q = '-' :: natToChars (-q).num.toNat := by
  unfold ratToChars ratToCharsNN
  rw [if_pos hq, if_pos (by rw [Rat.neg_den]; exact hden)]

lemma jsNumber_ratToChars (q : ℚ) (hden : q.den = 1) :
    jsNumber (ratToChars q) = some q := by
  by_cases hq : q < 0
  · rw [ratToChars_int_neg q hden hq,
      show jsNumber ('-' :: natToChars (-q).num.toNat) =
        (parseUnsigned (natToChars (-q).num.toNat)).map (fun x => -x) from rfl,
      parseUnsigned_natToChars]
    rw [Option.map_some']
    congr 1
    have hnn : (0 : ℚ) ≤ -q := by linarith
    calc -(((-q).num.toNat : ℕ) : ℚ)
        = -(((-q).num.toNat : ℤ) : ℚ) := by push_cast; ring
      _ = -(((-q).num : ℤ) : ℚ) := by rw [Int.toNat_of_nonneg (Rat.num_nonneg.2 hnn)]
      _ = q := by rw [Rat_den_one_cast_num (-q) (by rw [Rat.neg_den]; exact hden)]; ring
  · push_neg at hq
    rw [ratToChars_int_nonneg q hden hq, jsNumber_natToChars]
    congr 1
    calc ((q.num.toNat : ℕ) : ℚ)
        = ((q.num.toNat : ℤ) : ℚ) := by push_cast; ring
      _ = ((q.num : ℤ) : ℚ) := by rw [Int.toNat_of_nonneg (Rat.num_nonneg.2 hq)]
      _ = q := Rat_den_one_cast_num q hden

lemma ratToChars_int_chars (q : ℚ) (hden : q.den = 1) :
    ∀ c ∈ ratToChars q, isDigitChar c = true ∨ c = '-' := by
  by_cases hq : q < 0
  · rw [ratToChars_int_neg q hden hq]
    intro c hc
    rcases List.mem_cons.1 hc with rfl | hc'
    · exact Or.inr rfl
    · exact Or.inl (natToChars_digits _ c hc')
  · push_neg at hq
    rw [ratToChars_int_nonneg q hden hq]
    intro c hc
    exact Or.inl (natToChars_digits _ c hc)

lemma ratToChars_not_mem (q : ℚ) (hden : q.den = 1) (ch : Char)
    (hch : isDigitChar ch = false) (hch2 : ch ≠ '-') : ch ∉ ratToChars q := by
  intro hmem
  rcases ratToChars_int_chars q hden ch hmem with hd | hd
  · rw [hd] at hch
    exact absurd hch (by decide)
  · exact hch2 hd

lemma splitOnChar_no_sep (c : Char) :
    ∀ s : List Char, c ∉ s → splitOnChar c s = [s]
  | [], _ => rfl
  | x :: xs, h => by
    have hx : ¬ x = c := fun hxc => h (hxc ▸ List.mem_cons_self x xs)
    have ih := splitOnChar_no_sep c xs (fun hm => h (List.mem_cons_of_mem _ hm))
    simp [splitOnChar, hx, ih]

lemma splitOnChar_append (c : Char) :
    ∀ (p ys : List Char), c ∉ p → splitOnChar c (p ++ c :: ys) = p :: splitOnChar c ys
  | [], ys, _ => by simp [splitOnChar]
  | x :: xs, ys, h => by
    have hx : ¬ x = c := fun hxc => h (hxc ▸ List.mem_cons_self x xs)
    have ih := splitOnChar_append c xs ys (fun hm => h (List.mem_cons_of_mem _ hm))
    simp [splitOnChar, hx, ih]

lemma splitOnChar_joinSep (c : Char) :
    ∀ ps : List (List Char), ps ≠ [] → (∀ p ∈ ps, c ∉ p) →
      splitOnChar c (joinSep c ps) = ps
  | [], h, _ => absurd rfl h
  | [p], _, hp => by
    simp only [joinSep]
    exact splitOnChar_no_sep c p (hp p (List.mem_cons_self p []))
  | p :: q :: ps, _, hp => by
    simp only [joinSep]
    rw [splitOnChar_append c p (joinSep c (q :: ps)) (hp p (List.mem_cons_self _ _)),
      splitOnChar_joinSep c (q :: ps) (by simp)
        (fun x hx => hp x (List.mem_cons_of_mem _ hx))]

lemma joinSep_ne_nil (c : Char) :
    ∀ ps : List (List Char), ps ≠ [] → (∀ p ∈ ps, p ≠ []) → joinSep c ps ≠ []
  | [], h, _ => absurd rfl h
  | [p], _, hp => by simpa [joinSep] using hp p (List.mem_cons_self _ _)
  | p :: q :: ps, _, _ => by
    simp only [joinSep]
    simp

lemma not_mem_append_cons (ch sep : Char) (A B : List Char)
    (hA : ch ∉ A) (hsep : ch ≠ sep) (hB : ch ∉ B) : ch ∉ A ++ sep :: B := by
  intro hmem
  rcases List.mem_append.1 hmem with h | h
  · exact hA h
  · rcases List.mem_cons.1 h with h | h
    · exact hsep h
    · exact hB h

lemma parseUnsigned_eq_dot (s rs : List Char) (hrest : (takeDigits s).2 = '.' :: rs) :
    parseUnsigned s =
      (if (takeDigits rs).2 = [] then
        if (takeDigits s).1 = [] ∧ (takeDigits rs).1 = [] then none
        else some ((valOfDigits (takeDigits s).1 : ℚ) +
          (valOfDigits (takeDigits rs).1 : ℚ) / (10 : ℚ) ^ (takeDigits rs).1.length)
      else none) := by
  unfold parseUnsigned
  rw [hrest]
  rfl

lemma parseUnsigned_eq_other (s : List Char) (r0 : Char) (rs : List Char)
    (hrest : (takeDigits s).2 = r0 :: rs) (hdot : r0 ≠ '.') :
    parseUnsigned s = none := by
  unfold parseUnsigned
  rw [hrest]
  split
  · next heq => exact absurd heq (by simp)
  · next _ heq =>
    injection heq with h1 _
    exact absurd h1 hdot
  · rfl

lemma parseUnsigned_chars (s : List Char) (v : ℚ) (h : parseUnsigned s = some v) :
    ∀ c ∈ s, isDigitChar c = true ∨ c = '.' := by
  obtain ⟨hsplit, hdig⟩ := takeDigits_split s
  cases hrest : (takeDigits s).2 with
  | nil =>
    intro c hc
    rw [hsplit, hrest, List.append_nil] at hc
    exact Or.inl (hdig c hc)
  | cons r0 rs =>
    by_cases hdot : r0 = '.'
    · subst hdot
      rw [parseUnsigned_eq_dot s rs hrest] at h
      obtain ⟨hsplit2, hdig2⟩ := takeDigits_split rs
      by_cases hre : (takeDigits rs).2 = []
      · intro c hc
        rw [hsplit, hrest] at hc
        rcases List.mem_append.1 hc with h1 | h1
        · exact Or.inl (hdig c h1)
        · rcases List.mem_cons.1 h1 with rfl | h2
          · exact Or.inr rfl
          · rw [hsplit2, hre, List.append_nil] at h2
            exact Or.inl (hdig2 c h2)
      · rw [if_neg hre] at h
        exact absurd h (by simp)
    · rw [parseUnsigned_eq_other s r0 rs hrest hdot] at h
      exact absurd h (by simp)

lemma jsNumber_chars (s : List Char) (v : ℚ) (h : jsNumber s = some v) :
    ∀ c ∈ s, isDigitChar c = true ∨ c = '.' ∨ c = '-' ∨ c = '+' := by
  cases s with
  | nil => simp
  | cons c0 cs =>
    by_cases h1 : c0 = '-'
    · subst h1
      intro c hc
      rcases List.mem_cons.1 hc with rfl | hc'
      · exact Or.inr (Or.inr (Or.inl rfl))
      · obtain ⟨w, hw⟩ : ∃ w, parseUnsigned cs = some w := by
          rcases hps : parseUnsigned cs with _ | w
          · rw [show jsNumber ('-' :: cs) = (parseUnsigned cs).map (fun q => -q) from rfl,
              hps] at h
            exact absurd h (by simp)
          · exact ⟨w, rfl⟩
        rcases parseUnsigned_chars cs w hw c hc' with hd | hd
        · exact Or.inl hd
        · exact Or.inr (Or.inl hd)
    · by_cases h2 : c0 = '+'
      · subst h2
        intro c hc
        rcases List.mem_cons.1 hc with rfl | hc'
        · exact Or.inr (Or.inr (Or.inr rfl))
        · rw [show jsNumber ('+' :: cs) = parseUnsigned cs from rfl] at h
          rcases parseUnsigned_chars cs v h c hc' with hd | hd
          · exact Or.inl hd
          · exact Or.inr (Or.inl hd)
      · rw [jsNumber_cons_other c0 cs h1 h2] at h
        intro c hc
        rcases parseUnsigned_chars _ _ h c hc with hd | hd
        · exact Or.inl hd
        · exact Or.inr (Or.inl hd)

lemma jsNumber_no_sep (s : List Char) (v : ℚ) (h : jsNumber s = some v) :
    ';' ∉ s ∧ ':' ∉ s ∧ ',' ∉ s := by
  refine ⟨fun hc => ?_, fun hc => ?_, fun hc => ?_⟩ <;>
    rcases jsNumber_chars s v h _ hc with hd | hd | hd | hd <;>
    exact absurd hd (by decide)

lemma cleanName_eq_self (n : List Char) (h : ∀ c ∈ n, c ∉ reservedChars) :
    cleanName n = n := by
  induction n with
  | nil => rfl
  | cons c cs ih =>
    simp only [cleanName, List.map_cons] at *
    rw [if_neg (h c (List.mem_cons_self c cs))]
    exact congrArg (c :: ·) (ih (fun x hx => h x (List.mem_cons_of_mem _ hx)))

lemma coordsChars_not_mem (s : Sprite) (hx : s.x.den = 1) (hy : s.y.den = 1)
    (hw : s.w.den = 1) (hh : s.h.den = 1) (ch : Char)
    (hch : isDigitChar ch = false) (hch2 : ch ≠ '-') (hch3 : ch ≠ ',') :
    ch ∉ coordsChars s := by
  unfold coordsChars
  exact not_mem_append_cons ch ',' _ _ (ratToChars_not_mem s.x hx ch hch hch2) hch3
    (not_mem_append_cons ch ',' _ _ (ratToChars_not_mem s.y hy ch hch hch2) hch3
      (not_mem_append_cons ch ',' _ _ (ratToChars_not_mem s.w hw ch hch hch2) hch3
        (ratToChars_not_mem s.h hh ch hch hch2)))

lemma splitOnChar_coordsChars (s : Sprite) (hx : s.x.den = 1) (hy : s.y.den = 1)
    (hw : s.w.den = 1) (hh : s.h.den = 1) :
    splitOnChar ',' (coordsChars s) =
      [ratToChars s.x, ratToChars s.y, ratToChars s.w, ratToChars s.h] := by
  unfold coordsChars
  rw [splitOnChar_append ',' _ _ (ratToChars_not_mem s.x hx ',' (by decide) (by decide)),
    splitOnChar_append ',' _ _ (ratToChars_not_mem s.y hy ',' (by decide) (by decide)),
    splitOnChar_append ',' _ _ (ratToChars_not_mem s.w hw ',' (by decide) (by decide)),
    splitOnChar_no_sep ',' _ (ratToChars_not_mem s.h hh ',' (by decide) (by decide))]

lemma jsNumberAt_four_zero (A B C D : List Char) : jsNumberAt [A, B, C, D] 0 = jsNumber A := rfl

lemma jsNumberAt_four_one (A B C D : List Char) : jsNumberAt [A, B, C, D] 1 = jsNumber B := rfl

lemma jsNumberAt_four_two (A B C D : List Char) : jsNumberAt [A, B, C, D] 2 = jsNumber C := rfl

lemma jsNumberAt_four_three (A B C D : List Char) : jsNumberAt [A, B, C, D] 3 = jsNumber D := rfl

lemma parseRecord_encodeRecord (rid : ℕ) (s : Sprite)
    (hname : s.name ≠ []) (hres : ∀ c ∈ s.name, c ∉ reservedChars)
    (hx : s.x.den = 1) (hy : s.y.den = 1) (hw : s.w.den = 1) (hh : s.h.den = 1) :
    parseRecord rid (encodeRecord s) = some ⟨rid, s.name, s.x, s.y, s.w, s.h⟩ := by
  have hcolon_name : ':' ∉ s.name := fun hm =>
    absurd (by decide : ':' ∈ reservedChars) (hres ':' hm)
  have hcolon_coords : ':' ∉ coordsChars s :=
    coordsChars_not_mem s hx hy hw hh ':' (by decide) (by decide) (by decide)
  have hcoords_ne : coordsChars s ≠ [] := by
    unfold coordsChars
    simp
  unfold parseRecord encodeRecord
  rw [cleanName_eq_self s.name hres,
    splitOnChar_append ':' s.name (coordsChars s) hcolon_name,
    splitOnChar_no_sep ':' (coordsChars s) hcolon_coords]
  dsimp only
  rw [if_neg (by simp [hname, hcoords_ne]),
    splitOnChar_coordsChars s hx hy hw hh,
    jsNumberAt_four_zero, jsNumberAt_four_one, jsNumberAt_four_two, jsNumberAt_four_three,
    jsNumber_ratToChars s.x hx, jsNumber_ratToChars s.y hy,
    jsNumber_ratToChars s.w hw, jsNumber_ratToChars s.h hh]

lemma encodeRecord_ne_nil (s : Sprite) : encodeRecord s ≠ [] := by
  unfold encodeRecord
  simp

lemma encodeRecord_no_semi (s : Sprite)
    (hres : ∀ c ∈ s.name, c ∉ reservedChars)
    (hx : s.x.den = 1) (hy : s.y.den = 1) (hw : s.w.den = 1) (hh : s.h.den = 1) :
    ';' ∉ encodeRecord s := by
  unfold encodeRecord
  rw [cleanName_eq_self s.name hres]
  exact not_mem_append_cons ';' ':' _ _
    (fun hm => absurd (by decide : ';' ∈ reservedChars) (hres ';' hm)) (by decide)
    (coordsChars_not_mem s hx hy hw hh ';' (by decide) (by decide) (by decide))

lemma deserializeSprites_eq (now : ℕ) (dataStr : List Char) :
    deserializeSprites now ('#' :: 'v' :: '1' :: '|' :: dataStr) =
      if dataStr = [] then [] else decodeRecords now 0 (splitOnChar ';' dataStr) := rfl

lemma decodeRecords_map_encode (now : ℕ) :
    ∀ (ss : List Sprite) (i : ℕ),
      (∀ s ∈ ss, s.name ≠ [] ∧ (∀ c ∈ s.name, c ∉ reservedChars) ∧
        s.x.den = 1 ∧ s.y.den = 1 ∧ s.w.den = 1 ∧ s.h.den = 1) →
      (decodeRecords now i (ss.map encodeRecord)).map
          (fun s => (s.name, s.x, s.y, s.w, s.h)) =
        ss.map (fun s => (s.name, s.x, s.y, s.w, s.h))
  | [], _, _ => rfl
  | s :: ss, i, h => by
    obtain ⟨h1, h2, h3, h4, h5, h6⟩ := h s (List.mem_cons_self s ss)
    simp only [List.map_cons, decodeRecords]
    rw [parseRecord_encodeRecord (now + i) s h1 h2 h3 h4 h5 h6]
    simp only [List.map_cons]
    rw [decodeRecords_map_encode now ss (i + 1)
      (fun x hx => h x (List.mem_cons_of_mem _ hx))]

/-- C2 (amended): the round trip holds through the URL hash — prepending the
`'#'` that `window.location.hash` supplies, `deserializeSprites` recovers
from `serializeSprites` output the same `(name, x, y, w, h)` tuples in the
same order, for every sprite list whose names are non-empty and free of the
reserved characters `':' ';' ',' '|'` and whose coordinates are integers
(per the documented Rectangle data model); identifiers need not match.  The
literal `decode ∘ encode` (without the `'#'`) instead returns the empty
list. -/
theorem decode_hash_encode_roundtrip (now : ℕ) (ss : List Sprite)
    (h : ∀ s ∈ ss, s.name ≠ [] ∧ (∀ c ∈ s.name, c ∉ reservedChars) ∧
      s.x.den = 1 ∧ s.y.den = 1 ∧ s.w.den = 1 ∧ s.h.den = 1) :
    (deserializeSprites now ('#' :: serializeSprites ss)).map
        (fun s => (s.name, s.x, s.y, s.w, s.h)) =
      ss.map (fun s => (s.name, s.x, s.y, s.w, s.h)) := by
  cases ss with
  | nil => rfl
  | cons s0 rest =>
    unfold serializeSprites
    rw [if_neg (by simp)]
    have hrecords_ne : ∀ r ∈ (s0 :: rest).map encodeRecord, r ≠ [] := by
      intro r hr
      obtain ⟨s, -, rfl⟩ := List.mem_map.1 hr
      exact encodeRecord_ne_nil s
    have hnosemi : ∀ r ∈ (s0 :: rest).map encodeRecord, ';' ∉ r := by
      intro r hr
      obtain ⟨s, hs, rfl⟩ := List.mem_map.1 hr
      obtain ⟨-, h2, h3, h4, h5, h6⟩ := h s hs
      exact encodeRecord_no_semi s h2 h3 h4 h5 h6
    rw [deserializeSprites_eq,
      if_neg (joinSep_ne_nil ';' _ (by simp) hrecords_ne),
      splitOnChar_joinSep ';' _ (by simp) hnosemi]
    exact decodeRecords_map_encode now (s0 :: rest) 0 h

/-- Witness for C2: a two-sprite list round-trips through `'#' ++ encode`. -/
theorem decode_hash_encode_roundtrip_witness :
    (deserializeSprites 5 ('#' :: serializeSprites
        [⟨7, str "icon-a", 0, 0, 32, 32⟩, ⟨8, str "icon-b", 34, 0, 32, 32⟩])).map
        (fun s => (s.name, s.x, s.y, s.w, s.h)) =
      ([⟨7, str "icon-a", 0, 0, 32, 32⟩, ⟨8, str "icon-b", 34, 0, 32, 32⟩] :
          List Sprite).map (fun s => (s.name, s.x, s.y, s.w, s.h)) :=
  decode_hash_encode_roundtrip 5
    [⟨7, str "icon-a", 0, 0, 32, 32⟩, ⟨8, str "icon-b", 34, 0, 32, 32⟩] (by decide)

/-- C3 (amended): `deserializeSprites` of any string missing the `#v1|`
prefix — the `'#'` of `window.location.hash` followed by the `v1|` version
tag — returns the empty list (treated as no data, not an error); within a
prefixed string each malformed record is skipped individually while the
others are decoded: the spec's example input, with the `'#'` prepended,
returns exactly the `b` rectangle (under the fresh identifier `now + 1`). -/
theorem decode_prefix_and_skip (now : ℕ) (s : List Char) :
    (¬ (['#', 'v', '1', '|'] <+: s) → deserializeSprites now s = []) ∧
      deserializeSprites now (str "#v1|a:1,2,3,x;b:0,0,10,10") =
        [⟨now + 1, str "b", 0, 0, 10, 10⟩] := by
  constructor
  · intro hpre
    unfold deserializeSprites
    split
    · next dataStr =>
      exact absurd ⟨dataStr, rfl⟩ hpre
    · rfl
  · rfl

/-- Witness for C3: the spec's example without the `'#'` decodes to nothing;
with the `'#'` it yields exactly the `b` rectangle. -/
theorem decode_prefix_and_skip_witness :
    deserializeSprites 0 (str "v1|a:1,2,3,x;b:0,0,10,10") = [] ∧
      deserializeSprites 0 (str "#v1|a:1,2,3,x;b:0,0,10,10") =
        [⟨1, str "b", 0, 0, 10, 10⟩] := by
  constructor
  · exact (decode_prefix_and_skip 0 (str "v1|a:1,2,3,x;b:0,0,10,10")).1 (by decide)
  · have h := (decode_prefix_and_skip 0 []).2
    simpa using h

/-- C10: `deserializeSprites` performs no range or integrality validation on
coordinates — for every well-prefixed record whose name is usable and whose
four coordinate fields parse as numbers (negative, zero or fractional values
included), it yields a rectangle carrying exactly those parsed values, which
therefore need not satisfy the documented Rectangle invariant of
non-negative integer coordinates with `w > 0` and `h > 0`. -/
theorem decode_no_validation (now : ℕ) (name a b c d : List Char) (x y w h : ℚ)
    (hn : name ≠ []) (hn1 : ';' ∉ name) (hn2 : ':' ∉ name)
    (ha : jsNumber a = some x) (hb : jsNumber b = some y)
    (hc : jsNumber c = some w) (hd : jsNumber d = some h) :
    deserializeSprites now
        ('#' :: 'v' :: '1' :: '|' ::
          (name ++ ':' :: (a ++ ',' :: (b ++ ',' :: (c ++ ',' :: d))))) =
      [⟨now, name, x, y, w, h⟩] := by
  obtain ⟨ha1, ha2, ha3⟩ := jsNumber_no_sep a x ha
  obtain ⟨hb1, hb2, hb3⟩ := jsNumber_no_sep b y hb
  obtain ⟨hc1, hc2, hc3⟩ := jsNumber_no_sep c w hc
  obtain ⟨hd1, hd2, hd3⟩ := jsNumber_no_sep d h hd
  have hne : name ++ ':' :: (a ++ ',' :: (b ++ ',' :: (c ++ ',' :: d))) ≠ [] := by
    simp
  have hnosemi : ';' ∉ name ++ ':' :: (a ++ ',' :: (b ++ ',' :: (c ++ ',' :: d))) :=
    not_mem_append_cons ';' ':' _ _ hn1 (by decide)
      (not_mem_append_cons ';' ',' _ _ ha1 (by decide)
        (not_mem_append_cons ';' ',' _ _ hb1 (by decide)
          (not_mem_append_cons ';' ',' _ _ hc1 (by decide) hd1)))
  have hnocolon : ':' ∉ a ++ ',' :: (b ++ ',' :: (c ++ ',' :: d)) :=
    not_mem_append_cons ':' ',' _ _ ha2 (by decide)
      (not_mem_append_cons ':' ',' _ _ hb2 (by decide)
        (not_mem_append_cons ':' ',' _ _ hc2 (by decide) hd2))
  rw [deserializeSprites_eq, if_neg hne, splitOnChar_no_sep ';' _ hnosemi]
  simp only [decodeRecords]
  unfold parseRecord
  rw [splitOnChar_append ':' name _ hn2, splitOnChar_no_sep ':' _ hnocolon]
  dsimp only
  rw [if_neg (by simp [hn]),
    splitOnChar_append ',' a _ ha3, splitOnChar_append ',' b _ hb3,
    splitOnChar_append ',' c _ hc3, splitOnChar_no_sep ',' d hd3,
    jsNumberAt_four_zero, jsNumberAt_four_one, jsNumberAt_four_two, jsNumberAt_four_three,
    ha, hb, hc, hd]
  simp

/-- Witness for C10: the record `a:-1.5,0,0,10` decodes to a rectangle with
negative fractional `x` and zero `w` — violating the documented `w > 0` and
non-negative-integer invariant. -/
theorem decode_no_validation_witness :
    deserializeSprites 3 (str "#v1|a:-1.5,0,0,10") =
        [⟨3, str "a", -((1 : ℚ) + (5 : ℚ) / 10 ^ (1 : ℕ)), 0, 0, 10⟩] ∧
      (-((1 : ℚ) + (5 : ℚ) / 10 ^ (1 : ℕ)) < 0) := by
  constructor
  · have h := decode_no_validation 3 (str "a") (str "-1.5") (str "0") (str "0") (str "10")
      (-((1 : ℚ) + (5 : ℚ) / 10 ^ (1 : ℕ))) 0 0 10
      (by decide) (by decide) (by decide) rfl rfl rfl rfl
    exact h
  · norm_num
